import Mathlib

/-!
Verification of the peer-health monitor (metric store, metrics checker,
pubsub monitor) against its natural-language specification.

The embedding follows the Go source files `monitor/util/metrics_checker.go`
and `monitor/pubsubmon/pubsubmon.go`.  The metric store (`MetricStore` with
`Add`, `Latest`, `PeerMetrics`), the `api.Metric` helpers (`Expired`,
`Discard`) and `util.PeersetFilter` are not part of the provided sources;
their definitions below are modelled from the specification text and say so
in their doc comments.  Time is passed explicitly (`now : Int`); the alert
channel is a bounded list; goroutine interleavings relevant to shutdown are
modelled as explicit event sequences.
-/

namespace api

/-- Metric mirrors the api.Metric wire/in-memory record: a named observation
(`name` is the metric kind) reported by `peer`, with an opaque `value`, a
structural-validity flag `valid`, and an absolute expiry timestamp
`expire`. -/
structure Metric where
  name : String
  peer : String
  value : String
  valid : Bool
  expire : Int
deriving DecidableEq, Repr

/-- Modelled from the spec: missing from src (api package). The spec states
that `Expired()` is true when the current time is at or past the `ExpiresAt`
value.  The current time is passed explicitly. -/
def Metric.Expired (m : Metric) (now : Int) : Bool :=
  m.expire ≤ now

/-- Modelled from the spec: missing from src (api package). The spec states
that `Discard()` holds for an invalid metric, i.e. one with missing kind or
peer. -/
def Metric.Discard (m : Metric) : Bool :=
  m.name == "" || m.peer == ""

/-- Alert mirrors api.Alert: the peer and metric kind that triggered the
alert, nothing else. -/
structure Alert where
  peer : String
  metricName : String
deriving DecidableEq, Repr

end api

namespace util

/-- Modelled from the spec: the MetricStore source is missing from src.
The store keeps, per peer and metric kind, a bounded ordered history,
most-recent-last.  We represent the whole store as a single list of metrics
in arrival order (newest last); the per-key histories are the filtered
sublists. -/
abbrev MetricStore : Type := List api.Metric

/-- Modelled from the spec: store `Add` inserts the metric into the history
for its (peer, kind) key, evicting the oldest entry of that key when the
per-key window is full; it does not validate the metric. -/
def Add (window : Nat) (st : MetricStore) (m : api.Metric) : MetricStore :=
  let sameKey : api.Metric → Bool := fun x => x.peer == m.peer && x.name == m.name
  if window ≤ (st.filter sameKey).length then
    st.eraseP sameKey ++ [m]
  else
    st ++ [m]

/-- Most recently added metric of kind `k` reported by peer `p`, if any
(the last matching entry in arrival order). -/
def latestFor (st : MetricStore) (p k : String) : Option api.Metric :=
  (st.filter (fun x => x.peer == p && x.name == k)).getLast?

/-- Kinds that peer `p` has reported at least once. -/
def kindsOf (st : MetricStore) (p : String) : List String :=
  ((st.filter (fun x => x.peer == p)).map api.Metric.name).dedup

/-- Modelled from the spec: `PeerMetrics(peer)` returns the most recent
metric of each kind reported by `peer`, regardless of expiry. -/
def PeerMetrics (st : MetricStore) (p : String) : List api.Metric :=
  (kindsOf st p).filterMap (fun k => latestFor st p k)

/-- Peers that have reported kind `k` at least once. -/
def peersOf (st : MetricStore) (k : String) : List String :=
  ((st.filter (fun x => x.name == k)).map api.Metric.peer).dedup

/-- Modelled from the spec: `Latest(kind)` returns, for every peer that has
reported the kind, its most recently added metric of that kind provided it
has not expired; peers whose newest entry has expired are omitted. -/
def Latest (st : MetricStore) (k : String) (now : Int) : List api.Metric :=
  ((peersOf st k).filterMap (fun p => latestFor st p k)).filter
    (fun m => !(m.Expired now))

/-- Modelled from the spec: `PeersetFilter` keeps only the metrics whose
reporting peer is present in the given peer set. -/
def PeersetFilter (ms : List api.Metric) (peers : List String) : List api.Metric :=
  ms.filter (fun m => peers.contains m.peer)

/-- AlertChannelCap mirrors the package variable: the buffer capacity of the
alerts channel. -/
def AlertChannelCap : Nat := 256

/-- CheckErr is the single error the checker can produce,
ErrAlertChannelFull. -/
inductive CheckErr
  | alertChannelFull
deriving DecidableEq, Repr

/-- Embedding of MetricsChecker.alert: a non-blocking send on the bounded
alert channel, represented as the queue of unconsumed alerts.  If the queue
is at capacity the send fails with the channel-full error and the queue is
unchanged; otherwise the alert is appended. -/
def alertTry (cap : Nat) (q : List api.Alert) (pid metricName : String) :
    List api.Alert × Option CheckErr :=
  if q.length < cap then (q ++ [{ peer := pid, metricName := metricName }], none)
  else (q, some .alertChannelFull)

/-- Inner loop of CheckMetrics over the metrics of one peer: alert on each
valid, expired metric; stop at the first failed enqueue. -/
def checkMetricsAux (cap : Nat) (now : Int) (q : List api.Alert) :
    List api.Metric → List api.Alert × Option CheckErr
  | [] => (q, none)
  | m :: ms =>
    if m.valid && m.Expired now then
      match alertTry cap q m.peer m.name with
      | (q', none) => checkMetricsAux cap now q' ms
      | (q', some e) => (q', some e)
    else
      checkMetricsAux cap now q ms

/-- Outer loop of CheckMetrics over the given peer set. -/
def checkMetricsPeers (cap : Nat) (st : MetricStore) (now : Int)
    (q : List api.Alert) : List String → List api.Alert × Option CheckErr
  | [] => (q, none)
  | p :: ps =>
    match checkMetricsAux cap now q (PeerMetrics st p) with
    | (q', none) => checkMetricsPeers cap st now q' ps
    | (q', some e) => (q', some e)

/-- Embedding of MetricsChecker.CheckMetrics: for each peer of the given
peer set, alert on every valid and expired latest-per-kind metric, stopping
at the first failed enqueue and returning that error. -/
def CheckMetrics (cap : Nat) (st : MetricStore) (now : Int)
    (peers : List String) (q : List api.Alert) :
    List api.Alert × Option CheckErr :=
  checkMetricsPeers cap st now q peers

/-- Alerts a sweep of CheckMetrics over `peers` is due to emit: one per
(peer, kind) pair whose latest stored metric is valid and expired, in
iteration order. -/
def dueAlerts (st : MetricStore) (now : Int) (peers : List String) :
    List api.Alert :=
  peers.flatMap (fun p =>
    ((PeerMetrics st p).filter (fun m => m.valid && m.Expired now)).map
      (fun m => { peer := m.peer, metricName := m.name }))

/-- True when the latest stored metric for `(p, k)` exists and is valid and
expired. -/
def dueFor (st : MetricStore) (now : Int) (p k : String) : Bool :=
  match latestFor st p k with
  | some m => m.valid && m.Expired now
  | none => false

/-- Reference enqueue loop: push each alert of the list in order with the
non-blocking send, stopping at the first failure. -/
def enqueueAll (cap : Nat) (q : List api.Alert) :
    List api.Alert → List api.Alert × Option CheckErr
  | [] => (q, none)
  | a :: as =>
    if q.length < cap then enqueueAll cap (q ++ [a]) as
    else (q, some .alertChannelFull)

/-- One observable event of the Watch loop: a timer tick carrying the result
of the peer-set resolver, or the firing of the cancellation signal. -/
inductive WatchEvent
  | tick (res : Except String (List String))
  | cancel
deriving Repr

/-- Embedding of MetricsChecker.Watch as a fold over a finite event
sequence: a tick whose resolver call failed is skipped; a successful tick
runs CheckMetrics, ignoring its error; the loop returns exactly when the
cancellation event arrives.  The boolean records whether the loop has
returned after consuming the events. -/
def watchRun (cap : Nat) (st : MetricStore) (now : Int) :
    List WatchEvent → List api.Alert → List api.Alert × Bool
  | [], q => (q, false)
  | .cancel :: _, q => (q, true)
  | .tick (.error _) :: rest, q => watchRun cap st now rest q
  | .tick (.ok peers) :: rest, q =>
      watchRun cap st now rest (CheckMetrics cap st now peers q).1

end util

namespace pubsubmon

/-- PubsubTopic mirrors the package variable naming the single metrics
topic. -/
def PubsubTopic : String := "pubsubmon"

/-- Embedding of Monitor.LogMetric: stores the metric unconditionally (no
validation) and always returns success. -/
def LogMetric (window : Nat) (st : util.MetricStore) (m : api.Metric) :
    util.MetricStore × Option String :=
  (util.Add window st m, none)

/-- Embedding of Monitor.PublishMetric.  The encoder and the transport are
oracles: `enc` may fail with an encoding error, `pub` returns the transport
error of publishing a payload on a topic, if any.  The result records the
list of payloads handed to the transport and the returned error. -/
def PublishMetric (enc : api.Metric → Except String (List Nat))
    (pub : String → List Nat → Option String) (m : api.Metric) :
    List (String × List Nat) × Option String :=
  if m.Discard then ([], none)
  else
    match enc m with
    | .error e => ([], some e)
    | .ok b =>
      match pub PubsubTopic b with
      | some e => ([(PubsubTopic, b)], some e)
      | none => ([(PubsubTopic, b)], none)

/-- Embedding of Monitor.LatestMetrics: the latest valid metrics of the
given kind, filtered to the current peer set; if the peer-set resolver
fails, the empty list. -/
def LatestMetrics (st : util.MetricStore) (now : Int)
    (getPeers : Except String (List String)) (name : String) :
    List api.Metric :=
  let latest := util.Latest st name now
  match getPeers with
  | .error _ => []
  | .ok peers => util.PeersetFilter latest peers

/-- Teardown actions Shutdown can perform, in source order. -/
inductive TeardownAction
  | closeRpcReady
  | cancelCtx
  | waitTasks
deriving DecidableEq, Repr

/-- State of the rpcReady channel: how many buffered values it holds, its
capacity, and whether it has been closed. -/
structure ChanState where
  buf : Nat
  cap : Nat
  closed : Bool
deriving DecidableEq, Repr

/-- Lifecycle state of a Monitor that Shutdown touches. -/
structure MonState where
  shutdown : Bool
  rpcReady : ChanState
  cancelled : Bool
deriving DecidableEq, Repr

/-- Monitor state as constructed by New: not shut down, rpcReady an open
buffered channel of capacity one, context not cancelled. -/
def initMonState : MonState :=
  { shutdown := false
    rpcReady := { buf := 0, cap := 1, closed := false }
    cancelled := false }

/-- Embedding of Monitor.Shutdown: under the shutdown lock, if already shut
down it returns nil doing nothing; otherwise it closes rpcReady, cancels the
context, waits on the (empty, see wgRegisteredTasks) wait group, marks the
monitor shut down and returns nil.  The action list records the teardown
steps performed. -/
def Shutdown (s : MonState) : MonState × List TeardownAction × Option String :=
  if s.shutdown then (s, [], none)
  else
    ({ shutdown := true
       rpcReady := { s.rpcReady with closed := true }
       cancelled := true },
     [.closeRpcReady, .cancelCtx, .waitTasks], none)

/-- Outcome of a channel send in Go semantics: success, a block (buffer full,
no receiver), or a runtime panic (send on closed channel). -/
inductive SendResult
  | ok (c : ChanState)
  | blocked
  | panicked
deriving DecidableEq, Repr

/-- Go semantics of an unconditional channel send: sending on a closed
channel panics; on a full buffer it blocks; otherwise it buffers the
value. -/
def chanSend (c : ChanState) : SendResult :=
  if c.closed then .panicked
  else if c.buf < c.cap then .ok { c with buf := c.buf + 1 }
  else .blocked

/-- Embedding of Monitor.SetClient: saves the client and sends on rpcReady
unconditionally; the result is the outcome of that send. -/
def SetClient (s : MonState) : SendResult :=
  chanSend s.rpcReady

/-- Background tasks the Monitor spawns (the pubsub receive loop and the
watch loop of the checker). -/
inductive BgTask
  | receiveLoop
  | watchLoop
deriving DecidableEq, Repr

/-- Tasks registered with the Monitor wait group.  The source assigns this
list: no call to wg.Add appears anywhere in the package, so no task is ever
registered, and wg.Wait in Shutdown has nothing to wait for. -/
def wgRegisteredTasks : List BgTask := []

/-- Whether Shutdown, through wg.Wait, joins the given background task
before returning. -/
def shutdownJoins (t : BgTask) : Bool :=
  wgRegisteredTasks.contains t

/-- Boundary operations through which metrics can enter the system. -/
inductive BoundaryOp
  | logMetric (m : api.Metric)
  | publishMetric (m : api.Metric)
deriving Repr

/-- Run a sequence of boundary operations against the store: LogMetric adds
to the store, PublishMetric never touches it. -/
def runOps (window : Nat) : List BoundaryOp → util.MetricStore → util.MetricStore
  | [], st => st
  | .logMetric m :: rest, st => runOps window rest (util.Add window st m)
  | .publishMetric _ :: rest, st => runOps window rest st

/-- Joint state of the Monitor and the pubsub receive loop for the shutdown
race: the store, the lifecycle flags, and a message the receive loop has
already taken from the subscription and decoded but not yet stored. -/
structure SysState where
  store : util.MetricStore
  mon : MonState
  recvPending : Option api.Metric

/-- Interleaving events for the shutdown race. -/
inductive SysEvent
  | callShutdown
  | recvDeliver
deriving Repr

/-- Small-step interleaving semantics.  callShutdown runs Shutdown to
completion: since wgRegisteredTasks is empty, wg.Wait returns at once and
Shutdown does not block on the receive loop.  recvDeliver lets the receive
loop finish its current iteration, storing the already-decoded metric via
LogMetric; the source has no cancellation check between subscription.Next
returning a message and the LogMetric call, so this step stays enabled after
cancellation. -/
def sysStep (window : Nat) (s : SysState) : SysEvent → SysState
  | .callShutdown => { s with mon := (Shutdown s.mon).1 }
  | .recvDeliver =>
    match s.recvPending with
    | some m => { s with store := (LogMetric window s.store m).1, recvPending := none }
    | none => s

/-- Fold of the interleaving semantics over an event sequence. -/
def sysRun (window : Nat) : List SysEvent → SysState → SysState
  | [], s => s
  | e :: es, s => sysRun window es (sysStep window s e)

end pubsubmon

namespace util

theorem getLast?_some_mem {α : Type} {l : List α} {a : α}
    (h : l.getLast? = some a) : a ∈ l := by
  obtain ⟨hne, rfl⟩ := List.mem_getLast?_eq_getLast (l := l) (x := a) h
  exact List.getLast_mem hne

theorem latestFor_eq_some {st : MetricStore} {p k : String} {m : api.Metric}
    (h : latestFor st p k = some m) : m.peer = p ∧ m.name = k ∧ m ∈ st := by
  have hm := getLast?_some_mem h
  rw [List.mem_filter] at hm
  obtain ⟨hmem, hpred⟩ := hm
  simp only [Bool.and_eq_true, beq_iff_eq] at hpred
  exact ⟨hpred.1, hpred.2, hmem⟩

theorem latestFor_isSome_iff {st : MetricStore} {p k : String} :
    (latestFor st p k).isSome = true ↔ k ∈ kindsOf st p := by
  rw [latestFor, List.getLast?_isSome, kindsOf]
  constructor
  · intro hne
    obtain ⟨m, hm⟩ := List.exists_mem_of_ne_nil _ hne
    rw [List.mem_filter] at hm
    simp only [Bool.and_eq_true, beq_iff_eq] at hm
    rw [List.mem_dedup]
    refine List.mem_map.mpr ⟨m, ?_, hm.2.2⟩
    rw [List.mem_filter]
    exact ⟨hm.1, by simp [hm.2.1]⟩
  · intro hk
    rw [List.mem_dedup] at hk
    obtain ⟨m, hm, hname⟩ := List.mem_map.mp hk
    rw [List.mem_filter] at hm
    simp only [beq_iff_eq] at hm
    intro hnil
    rw [List.filter_eq_nil_iff] at hnil
    exact hnil m hm.1 (by simp [hm.2, hname])

theorem mem_PeerMetrics {st : MetricStore} {p : String} {m : api.Metric} :
    m ∈ PeerMetrics st p ↔ latestFor st p m.name = some m := by
  rw [PeerMetrics]
  constructor
  · intro hm
    obtain ⟨k, _, hlast⟩ := List.mem_filterMap.mp hm
    obtain ⟨_, hname, _⟩ := latestFor_eq_some hlast
    rwa [hname]
  · intro hlast
    refine List.mem_filterMap.mpr ⟨m.name, ?_, hlast⟩
    rw [← latestFor_isSome_iff, hlast]
    rfl

theorem mem_PeerMetrics_peer {st : MetricStore} {p : String} {m : api.Metric}
    (h : m ∈ PeerMetrics st p) : m.peer = p := by
  obtain ⟨k, _, hlast⟩ := List.mem_filterMap.mp h
  exact (latestFor_eq_some hlast).1

end util

namespace util

theorem enqueueAll_append (cap : Nat) (q : List api.Alert) (as bs : List api.Alert) :
    enqueueAll cap q (as ++ bs) =
      match enqueueAll cap q as with
      | (q', none) => enqueueAll cap q' bs
      | (q', some e) => (q', some e) := by
  induction as generalizing q with
  | nil => simp [enqueueAll]
  | cons a as ih =>
    simp only [List.cons_append, enqueueAll]
    by_cases h : q.length < cap
    · simp only [if_pos h]
      exact ih (q ++ [a])
    · simp only [if_neg h]

theorem checkMetricsAux_eq (cap : Nat) (now : Int) (q : List api.Alert)
    (ms : List api.Metric) :
    checkMetricsAux cap now q ms =
      enqueueAll cap q
        ((ms.filter (fun m => m.valid && m.Expired now)).map
          (fun m => { peer := m.peer, metricName := m.name })) := by
  induction ms generalizing q with
  | nil => simp [checkMetricsAux, enqueueAll]
  | cons m ms ih =>
    by_cases hdue : (m.valid && m.Expired now) = true
    · simp only [checkMetricsAux, if_pos hdue, List.filter_cons, hdue, List.map_cons,
        enqueueAll, alertTry]
      by_cases h : q.length < cap
      · simp only [if_pos h]
        exact ih _
      · simp [h]
    · simp only [checkMetricsAux, if_neg hdue, List.filter_cons, hdue]
      exact ih q

theorem checkMetricsPeers_eq (cap : Nat) (st : MetricStore) (now : Int)
    (q : List api.Alert) (peers : List String) :
    checkMetricsPeers cap st now q peers = enqueueAll cap q (dueAlerts st now peers) := by
  induction peers generalizing q with
  | nil => simp [checkMetricsPeers, dueAlerts, enqueueAll]
  | cons p ps ih =>
    simp only [checkMetricsPeers, dueAlerts, List.flatMap_cons]
    rw [enqueueAll_append, checkMetricsAux_eq]
    cases henq : enqueueAll cap q
        (((PeerMetrics st p).filter (fun m => m.valid && m.Expired now)).map
          (fun m => { peer := m.peer, metricName := m.name })) with
    | mk q' e =>
      cases e with
      | none => simpa using ih q'
      | some e => simp

theorem checkMetrics_eq (cap : Nat) (st : MetricStore) (now : Int)
    (peers : List String) (q : List api.Alert) :
    CheckMetrics cap st now peers q = enqueueAll cap q (dueAlerts st now peers) :=
  checkMetricsPeers_eq cap st now q peers

theorem enqueueAll_ok (cap : Nat) (q as : List api.Alert)
    (h : q.length + as.length ≤ cap) :
    enqueueAll cap q as = (q ++ as, none) := by
  induction as generalizing q with
  | nil => simp [enqueueAll]
  | cons a as ih =>
    have hlt : q.length < cap := by
      simp only [List.length_cons] at h
      omega
    simp only [enqueueAll, if_pos hlt]
    rw [ih]
    · simp
    · simp only [List.length_append, List.length_cons, List.length_nil] at h ⊢
      omega

theorem enqueueAll_err (cap : Nat) (q as : List api.Alert)
    (hq : q.length ≤ cap) (h : cap < q.length + as.length) :
    enqueueAll cap q as =
      (q ++ as.take (cap - q.length), some .alertChannelFull) := by
  induction as generalizing q with
  | nil =>
    simp only [List.length_nil, Nat.add_zero] at h
    exact ((by omega : False)).elim
  | cons a as ih =>
    by_cases hlt : q.length < cap
    · simp only [enqueueAll, if_pos hlt]
      rw [ih (q ++ [a]) (by simp; omega)
          (by simp only [List.length_append, List.length_cons] at h ⊢; omega)]
      have hc : cap - q.length = (cap - (q.length + 1)) + 1 := by omega
      simp only [List.length_append, List.length_singleton, List.append_assoc,
        List.singleton_append, hc, List.take_succ_cons]
    · have heq : q.length = cap := by omega
      simp [enqueueAll, if_neg hlt, heq]

theorem enqueueAll_none_of (cap : Nat) (q as : List api.Alert)
    (h : (enqueueAll cap q as).2 = none) :
    (enqueueAll cap q as).1 = q ++ as := by
  induction as generalizing q with
  | nil => simp [enqueueAll]
  | cons a as ih =>
    by_cases hlt : q.length < cap
    · simp only [enqueueAll, if_pos hlt] at h ⊢
      rw [ih _ h]
      simp
    · simp [enqueueAll, if_neg hlt] at h

theorem enqueueAll_prefix (cap : Nat) (q as : List api.Alert) :
    ∃ n, (enqueueAll cap q as).1 = q ++ as.take n := by
  induction as generalizing q with
  | nil => exact ⟨0, by simp [enqueueAll]⟩
  | cons a as ih =>
    by_cases hlt : q.length < cap
    · obtain ⟨n, hn⟩ := ih (q ++ [a])
      refine ⟨n + 1, ?_⟩
      simp only [enqueueAll, if_pos hlt, hn, List.take_succ_cons,
        List.append_assoc, List.singleton_append]
    · exact ⟨0, by simp [enqueueAll, if_neg hlt]⟩

theorem enqueueAll_length_le (cap : Nat) (q as : List api.Alert)
    (hq : q.length ≤ cap) : ((enqueueAll cap q as).1).length ≤ cap := by
  induction as generalizing q with
  | nil => simpa [enqueueAll]
  | cons a as ih =>
    by_cases hlt : q.length < cap
    · simp only [enqueueAll, if_pos hlt]
      exact ih (q ++ [a]) (by simp; omega)
    · simpa [enqueueAll, if_neg hlt]

end util

namespace util

theorem mem_dueAlerts {st : MetricStore} {now : Int} {peers : List String}
    {a : api.Alert} :
    a ∈ dueAlerts st now peers ↔
      a.peer ∈ peers ∧ dueFor st now a.peer a.metricName = true := by
  rw [dueAlerts, List.mem_flatMap]
  constructor
  · rintro ⟨p, hp, hin⟩
    obtain ⟨m, hmf, rfl⟩ := List.mem_map.mp hin
    rw [List.mem_filter] at hmf
    obtain ⟨hmem, hdue⟩ := hmf
    have hpeer := mem_PeerMetrics_peer hmem
    have hlast := mem_PeerMetrics.mp hmem
    refine ⟨by simpa [hpeer] using hp, ?_⟩
    simp only [dueFor, hpeer, hlast]
    exact hdue
  · rintro ⟨hp, hdue⟩
    refine ⟨a.peer, hp, ?_⟩
    simp only [dueFor] at hdue
    cases hlf : latestFor st a.peer a.metricName with
    | none => rw [hlf] at hdue; exact absurd hdue (by simp)
    | some m =>
      rw [hlf] at hdue
      obtain ⟨hpeer, hname, _⟩ := latestFor_eq_some hlf
      refine List.mem_map.mpr ⟨m, ?_, ?_⟩
      · rw [List.mem_filter]
        refine ⟨mem_PeerMetrics.mpr ?_, hdue⟩
        rw [hname]
        exact hlf
      · cases a
        simp_all

theorem dueAlerts_nodup {st : MetricStore} {now : Int} {peers : List String}
    (hnd : peers.Nodup) : (dueAlerts st now peers).Nodup := by
  rw [dueAlerts, List.nodup_flatMap]
  constructor
  · intro p _
    have hknd : (kindsOf st p).Nodup := by
      simp only [kindsOf]
      exact List.nodup_dedup _
    have hpm : (PeerMetrics st p).Nodup := by
      refine List.Nodup.filterMap ?_ hknd
      intro k k' m hk hk'
      have h1 := (latestFor_eq_some (Option.mem_def.mp hk)).2.1
      have h2 := (latestFor_eq_some (Option.mem_def.mp hk')).2.1
      rw [← h1, ← h2]
    refine List.Nodup.map_on ?_ (hpm.filter _)
    intro x hx y hy hxy
    rw [List.mem_filter] at hx hy
    have hlx := mem_PeerMetrics.mp hx.1
    have hly := mem_PeerMetrics.mp hy.1
    have hname : x.name = y.name := congrArg api.Alert.metricName hxy
    rw [hname] at hlx
    rw [hlx] at hly
    exact (Option.some.injEq _ _ ▸ hly)
  · refine hnd.imp ?_
    intro p p' hne a ha ha'
    obtain ⟨m, hmf, rfl⟩ := List.mem_map.mp ha
    obtain ⟨m', hmf', heq⟩ := List.mem_map.mp ha'
    rw [List.mem_filter] at hmf hmf'
    have h1 := mem_PeerMetrics_peer hmf.1
    have h2 := mem_PeerMetrics_peer hmf'.1
    have : m.peer = m'.peer := congrArg api.Alert.peer heq.symm
    exact hne (by rw [← h1, this, h2])

end util

namespace util

theorem mem_Add {window : Nat} {st : MetricStore} {m x : api.Metric}
    (h : x ∈ Add window st m) : x ∈ st ∨ x = m := by
  simp only [Add] at h
  split at h
  · rw [List.mem_append] at h
    rcases h with h | h
    · exact Or.inl (List.Sublist.mem h (List.eraseP_sublist st))
    · exact Or.inr (by simpa using h)
  · rw [List.mem_append] at h
    rcases h with h | h
    · exact Or.inl h
    · exact Or.inr (by simpa using h)

end util

namespace pubsubmon

/-- C1 counterexample: a structurally invalid metric (empty kind and Valid
false), handed to LogMetric exactly as the pubsub receive path hands over a
decoded inbound metric, is entered into the store; the stored-metrics-are-
valid invariant is refuted at this input. -/
theorem storedMetric_invalid_counterexample :
    ({ name := "", peer := "B", value := "", valid := false, expire := 0 } : api.Metric) ∈
      runOps 10
        [BoundaryOp.logMetric
          { name := "", peer := "B", value := "", valid := false, expire := 0 }] [] ∧
    ({ name := "", peer := "B", value := "", valid := false, expire := 0 } : api.Metric).valid
      = false ∧
    ({ name := "", peer := "B", value := "", valid := false, expire := 0 } : api.Metric).name
      = "" := by
  decide

/-- C1 amended: invalid metrics are rejected at the publish boundary only;
store Add and LogMetric do not validate, so the all-stored-metrics-valid
invariant holds exactly under the assumption that every metric handed to
LogMetric (in particular every decoded inbound metric) is structurally
valid; PublishMetric alone never enters anything into the store. -/
theorem storeValid_of_valid_logs (window : Nat) (ops : List BoundaryOp)
    (st : util.MetricStore)
    (hst : ∀ x ∈ st, x.valid = true ∧ x.Discard = false)
    (hops : ∀ m, BoundaryOp.logMetric m ∈ ops → m.valid = true ∧ m.Discard = false) :
    ∀ x ∈ runOps window ops st, x.valid = true ∧ x.Discard = false := by
  induction ops generalizing st with
  | nil => simpa [runOps] using hst
  | cons op rest ih =>
    cases op with
    | logMetric m =>
      refine ih (util.Add window st m) ?_ ?_
      · intro x hx
        rcases util.mem_Add hx with hx | rfl
        · exact hst x hx
        · exact hops x (by simp)
      · intro m' hm'
        exact hops m' (List.mem_cons_of_mem _ hm')
    | publishMetric m =>
      refine ih st hst ?_
      intro m' hm'
      exact hops m' (List.mem_cons_of_mem _ hm')

/-- C1 amended witness: with a single valid metric logged (and an invalid
one only published), every stored metric is valid. -/
theorem storeValid_of_valid_logs_witness :
    ({ name := "ping", peer := "A", value := "1", valid := true, expire := 0 } : api.Metric).valid
        = true ∧
    ({ name := "ping", peer := "A", value := "1", valid := true, expire := 0 } : api.Metric).Discard
        = false :=
  storeValid_of_valid_logs 10
    [BoundaryOp.logMetric { name := "ping", peer := "A", value := "1", valid := true, expire := 0 },
     BoundaryOp.publishMetric { name := "", peer := "", value := "", valid := false, expire := 0 }]
    [] (by simp)
    (by
      intro m hm
      simp only [List.mem_cons, List.not_mem_nil, or_false, reduceCtorEq,
        BoundaryOp.logMetric.injEq] at hm
      subst hm
      exact ⟨rfl, by decide⟩)
    _ (by decide)

/-- C2: the claim that Shutdown blocks until both background tasks have
exited fails on the code: no task is ever registered with the wait group
(the source has no wg.Add call), so wg.Wait in Shutdown returns at once; in
the interleaving where the receive loop holds an already-decoded message
when Shutdown is called, Shutdown returns with the store untouched and the
receive loop stores the metric afterwards. -/
theorem shutdown_returns_before_loops_exit :
    shutdownJoins BgTask.receiveLoop = false ∧
    shutdownJoins BgTask.watchLoop = false ∧
    (let mp : api.Metric := { name := "ping", peer := "A", value := "1", valid := true, expire := 9 }
     let s0 : SysState := { store := [], mon := initMonState, recvPending := some mp }
     let s1 := sysStep 10 s0 SysEvent.callShutdown
     s1.mon.shutdown = true ∧ s1.store = [] ∧
       (sysStep 10 s1 SysEvent.recvDeliver).store = [mp]) := by
  refine ⟨rfl, rfl, rfl, rfl, ?_⟩
  decide

end pubsubmon

namespace util

/-- C3: in a sweep where every enqueue succeeds, CheckMetrics emits exactly
the due alerts: one alert per (peer, kind) pair of the given peer set whose
latest stored metric is valid and expired; and in every sweep, successful or
not, no alert is ever emitted for a peer absent from the given set, even if
that peer has valid expired metrics in the store. -/
theorem checkMetrics_alerts_exactly_due (cap : Nat) (st : MetricStore)
    (now : Int) (peers : List String) (q : List api.Alert)
    (hnd : peers.Nodup) :
    ((CheckMetrics cap st now peers q).2 = none →
       (CheckMetrics cap st now peers q).1 = q ++ dueAlerts st now peers) ∧
    (∀ a : api.Alert, a ∈ dueAlerts st now peers ↔
       a.peer ∈ peers ∧ dueFor st now a.peer a.metricName = true) ∧
    (∀ p k : String, p ∈ peers → dueFor st now p k = true →
       (dueAlerts st now peers).count { peer := p, metricName := k } = 1) ∧
    (∀ a ∈ (CheckMetrics cap st now peers q).1, a ∈ q ∨ a.peer ∈ peers) := by
  refine ⟨?_, fun a => mem_dueAlerts, ?_, ?_⟩
  · intro hok
    rw [checkMetrics_eq] at hok ⊢
    exact enqueueAll_none_of cap q _ hok
  · intro p k hp hdue
    exact List.count_eq_one_of_mem (dueAlerts_nodup hnd)
      (mem_dueAlerts.mpr ⟨hp, hdue⟩)
  · intro a ha
    rw [checkMetrics_eq] at ha
    obtain ⟨n, hn⟩ := enqueueAll_prefix cap q (dueAlerts st now peers)
    rw [hn, List.mem_append] at ha
    rcases ha with ha | ha
    · exact Or.inl ha
    · exact Or.inr (mem_dueAlerts.mp (List.mem_of_mem_take ha)).1

/-- C3 witness: one expired valid metric for peer A, peer set containing A,
empty queue: the sweep succeeds and emits exactly the alert for (A, ping). -/
theorem checkMetrics_alerts_exactly_due_witness :
    (CheckMetrics 256
        [{ name := "ping", peer := "A", value := "1", valid := true, expire := 3 }]
        5 ["A"] []).1 =
      [] ++ dueAlerts
        [{ name := "ping", peer := "A", value := "1", valid := true, expire := 3 }] 5 ["A"] ∧
    ({ peer := "A", metricName := "ping" } : api.Alert) ∈
      dueAlerts
        [{ name := "ping", peer := "A", value := "1", valid := true, expire := 3 }] 5 ["A"] := by
  have h := checkMetrics_alerts_exactly_due 256
    [{ name := "ping", peer := "A", value := "1", valid := true, expire := 3 }]
    5 ["A"] [] (by decide)
  exact ⟨h.1 (by decide), (h.2.1 _).mpr (by decide)⟩

/-- C4: CheckMetrics returns an error exactly when an enqueue fails because
the queue became full; on that error the sweep stopped at the failing
enqueue, so only the due alerts that fit in the remaining capacity were
emitted and the later ones (later peers included) produced none; with no
failing enqueue it returns no error; the only error value is the queue-full
error. -/
theorem checkMetrics_err_iff_queue_full (cap : Nat) (st : MetricStore)
    (now : Int) (peers : List String) (q : List api.Alert)
    (hq : q.length ≤ cap) :
    ((CheckMetrics cap st now peers q).2 = some CheckErr.alertChannelFull ↔
       cap < q.length + (dueAlerts st now peers).length) ∧
    (cap < q.length + (dueAlerts st now peers).length →
       (CheckMetrics cap st now peers q).1 =
         q ++ (dueAlerts st now peers).take (cap - q.length)) ∧
    ((CheckMetrics cap st now peers q).2 = none ↔
       q.length + (dueAlerts st now peers).length ≤ cap) := by
  rw [checkMetrics_eq]
  by_cases hlt : cap < q.length + (dueAlerts st now peers).length
  · rw [enqueueAll_err cap q _ hq hlt]
    refine ⟨by simp [hlt], fun _ => rfl, by simp; omega⟩
  · rw [enqueueAll_ok cap q _ (by omega)]
    refine ⟨by simp [hlt], fun h => absurd h hlt, by simp; omega⟩

/-- C4 witness: queue capacity 1, two due alerts: the sweep returns the
queue-full error, emits only the first alert, and the success
characterization matches. -/
theorem checkMetrics_err_iff_queue_full_witness :
    (CheckMetrics 1
        [{ name := "ping", peer := "A", value := "1", valid := true, expire := 3 },
         { name := "ping", peer := "B", value := "1", valid := true, expire := 3 }]
        5 ["A", "B"] []).2 = some CheckErr.alertChannelFull := by
  have h := checkMetrics_err_iff_queue_full 1
    [{ name := "ping", peer := "A", value := "1", valid := true, expire := 3 },
     { name := "ping", peer := "B", value := "1", valid := true, expire := 3 }]
    5 ["A", "B"] [] (by decide)
  exact h.1.mpr (by decide)

/-- C5: the alert queue capacity defaults to 256; an enqueue attempt on a
queue already holding exactly the capacity fails immediately with the
queue-full error and leaves the queue unchanged; and no sweep ever grows the
queue beyond the capacity. -/
theorem alertChannel_bounded (q : List api.Alert) (pid metricName : String)
    (hfull : q.length = AlertChannelCap) :
    AlertChannelCap = 256 ∧
    alertTry AlertChannelCap q pid metricName = (q, some CheckErr.alertChannelFull) ∧
    (∀ (st : MetricStore) (now : Int) (peers : List String) (q₂ : List api.Alert),
       q₂.length ≤ AlertChannelCap →
       ((CheckMetrics AlertChannelCap st now peers q₂).1).length ≤ AlertChannelCap) := by
  refine ⟨rfl, by simp [alertTry, hfull], ?_⟩
  intro st now peers q₂ h
  rw [checkMetrics_eq]
  exact enqueueAll_length_le _ _ _ h

/-- C5 witness: a queue of 256 unconsumed alerts rejects the next enqueue
and is unchanged. -/
theorem alertChannel_bounded_witness :
    alertTry AlertChannelCap
        (List.replicate 256 { peer := "p", metricName := "m" }) "p2" "m2" =
      (List.replicate 256 { peer := "p", metricName := "m" },
       some CheckErr.alertChannelFull) :=
  (alertChannel_bounded _ "p2" "m2"
    (by rw [List.length_replicate]; rfl)).2.1

/-- C8: the Watch loop returns exactly when the cancellation signal fires: a
tick whose peer-set resolution failed is skipped with the queue untouched and
the loop continues, and a tick whose CheckMetrics hit the full queue also
continues the loop; no error from either source terminates or escapes the
loop. -/
theorem watch_terminates_iff_cancelled (cap : Nat) (st : MetricStore)
    (now : Int) (evs : List WatchEvent) (q : List api.Alert) :
    ((watchRun cap st now evs q).2 = true ↔ WatchEvent.cancel ∈ evs) ∧
    (∀ (msg : String) (rest : List WatchEvent) (q₂ : List api.Alert),
       watchRun cap st now (WatchEvent.tick (.error msg) :: rest) q₂ =
         watchRun cap st now rest q₂) ∧
    (∀ (peers : List String) (rest : List WatchEvent) (q₂ : List api.Alert),
       watchRun cap st now (WatchEvent.tick (.ok peers) :: rest) q₂ =
         watchRun cap st now rest (CheckMetrics cap st now peers q₂).1) := by
  refine ⟨?_, fun msg rest q₂ => rfl, fun peers rest q₂ => rfl⟩
  induction evs generalizing q with
  | nil => simp [watchRun]
  | cons e rest ih =>
    cases e with
    | cancel => simp [watchRun]
    | tick res =>
      cases res with
      | error msg => simp [watchRun, ih]
      | ok peers => simp [watchRun, ih]

/-- C8 witness: a failed-resolver tick followed by cancellation: the loop
has returned, and with the cancellation event removed it has not. -/
theorem watch_terminates_iff_cancelled_witness :
    (watchRun 256 [] 0 [WatchEvent.tick (.error "e"), WatchEvent.cancel] []).2 = true ∧
    (watchRun 256 [] 0 [WatchEvent.tick (.error "e")] []).2 ≠ true := by
  constructor
  · exact ((watch_terminates_iff_cancelled 256 [] 0
      [WatchEvent.tick (.error "e"), WatchEvent.cancel] []).1).mpr (by simp)
  · intro hcon
    have := ((watch_terminates_iff_cancelled 256 [] 0
      [WatchEvent.tick (.error "e")] []).1).mp hcon
    simp at this

end util

namespace pubsubmon

/-- C6: PublishMetric on a discardable metric (empty kind or peer) returns
success without handing anything to the transport; on a non-discardable
metric it encodes and publishes the payload on the shared topic, returning
any encoding error (nothing published) and any transport error (publish
attempted) to the caller. -/
theorem publishMetric_discard_or_publish
    (enc : api.Metric → Except String (List Nat))
    (pub : String → List Nat → Option String) (m : api.Metric) :
    (m.Discard = true → PublishMetric enc pub m = ([], none)) ∧
    (m.Discard = false → ∀ e, enc m = .error e →
       PublishMetric enc pub m = ([], some e)) ∧
    (m.Discard = false → ∀ b, enc m = .ok b →
       PublishMetric enc pub m = ([(PubsubTopic, b)], pub PubsubTopic b)) := by
  refine ⟨?_, ?_, ?_⟩
  · intro hd
    simp [PublishMetric, hd]
  · intro hd e he
    simp [PublishMetric, hd, he]
  · intro hd b hb
    cases hp : pub PubsubTopic b with
    | none => simp [PublishMetric, hd, hb, hp]
    | some e => simp [PublishMetric, hd, hb, hp]

/-- C6 witness: a metric with empty kind is silently discarded; a valid one
reaches the transport with the encoded payload and the transport verdict. -/
theorem publishMetric_discard_or_publish_witness :
    PublishMetric (fun _ => Except.ok [7]) (fun _ _ => none)
        { name := "", peer := "A", value := "", valid := true, expire := 0 } = ([], none) ∧
    PublishMetric (fun _ => Except.ok [7]) (fun _ _ => none)
        { name := "ping", peer := "A", value := "1", valid := true, expire := 0 } =
      ([(PubsubTopic, [7])], none) := by
  constructor
  · exact (publishMetric_discard_or_publish (fun _ => Except.ok [7]) (fun _ _ => none)
      { name := "", peer := "A", value := "", valid := true, expire := 0 }).1 (by decide)
  · exact (publishMetric_discard_or_publish (fun _ => Except.ok [7]) (fun _ _ => none)
      { name := "ping", peer := "A", value := "1", valid := true, expire := 0 }).2.2
      (by decide) [7] rfl

/-- C7: LatestMetrics equals the Store Latest of the kind filtered to
exactly the peers of the resolved peer set, and degrades to the empty
collection, propagating no error, when peer-set resolution fails. -/
theorem latestMetrics_peerset_filter (st : util.MetricStore) (now : Int)
    (getPeers : Except String (List String)) (name : String) :
    (∀ e, getPeers = .error e → LatestMetrics st now getPeers name = []) ∧
    (∀ peers, getPeers = .ok peers →
       LatestMetrics st now getPeers name =
         util.PeersetFilter (util.Latest st name now) peers ∧
       ∀ m, m ∈ LatestMetrics st now getPeers name ↔
         m ∈ util.Latest st name now ∧ m.peer ∈ peers) := by
  refine ⟨?_, ?_⟩
  · intro e he
    simp [LatestMetrics, he]
  · intro peers hp
    refine ⟨by simp [LatestMetrics, hp], ?_⟩
    intro m
    simp [LatestMetrics, hp, util.PeersetFilter, List.mem_filter]

/-- C7 witness: with a failing resolver the result is empty; with a resolver
returning only peer A, the stored fresh metric of peer A is returned and the
one of peer B is filtered out. -/
theorem latestMetrics_peerset_filter_witness :
    LatestMetrics
        [{ name := "ping", peer := "A", value := "1", valid := true, expire := 9 }]
        0 (.error "rpc down") "ping" = [] ∧
    (({ name := "ping", peer := "A", value := "1", valid := true, expire := 9 } : api.Metric) ∈
       LatestMetrics
         [{ name := "ping", peer := "A", value := "1", valid := true, expire := 9 },
          { name := "ping", peer := "B", value := "1", valid := true, expire := 9 }]
         0 (.ok ["A"]) "ping" ∧
     ¬ ({ name := "ping", peer := "B", value := "1", valid := true, expire := 9 } : api.Metric) ∈
       LatestMetrics
         [{ name := "ping", peer := "A", value := "1", valid := true, expire := 9 },
          { name := "ping", peer := "B", value := "1", valid := true, expire := 9 }]
         0 (.ok ["A"]) "ping") := by
  refine ⟨?_, ?_, ?_⟩
  · exact (latestMetrics_peerset_filter
      [{ name := "ping", peer := "A", value := "1", valid := true, expire := 9 }]
      0 (.error "rpc down") "ping").1 "rpc down" rfl
  · exact (((latestMetrics_peerset_filter
      [{ name := "ping", peer := "A", value := "1", valid := true, expire := 9 },
       { name := "ping", peer := "B", value := "1", valid := true, expire := 9 }]
      0 (.ok ["A"]) "ping").2 ["A"] rfl).2 _).mpr (by decide)
  · intro hmem
    have h := (((latestMetrics_peerset_filter
      [{ name := "ping", peer := "A", value := "1", valid := true, expire := 9 },
       { name := "ping", peer := "B", value := "1", valid := true, expire := 9 }]
      0 (.ok ["A"]) "ping").2 ["A"] rfl).2 _).mp hmem
    exact absurd h (by decide)

/-- C9: Shutdown is idempotent: on an already-shut-down Monitor it returns
success performing no teardown action and leaving the state unchanged; after
any first Shutdown the Monitor is marked shut down, so every subsequent call
is such a no-op returning success. -/
theorem shutdown_idempotent (s : MonState) (h : s.shutdown = true) :
    Shutdown s = (s, [], none) ∧
    (∀ s₀ : MonState,
       ((Shutdown s₀).1).shutdown = true ∧
       Shutdown ((Shutdown s₀).1) = ((Shutdown s₀).1, [], none) ∧
       (Shutdown s₀).2.2 = none) := by
  refine ⟨by simp [Shutdown, h], ?_⟩
  intro s₀
  by_cases hs : s₀.shutdown
  · simp [Shutdown, hs]
  · simp [Shutdown, hs]

/-- C9 witness: a second Shutdown on the state left by a first Shutdown of a
fresh Monitor returns success, no actions, same state. -/
theorem shutdown_idempotent_witness :
    Shutdown ((Shutdown initMonState).1) = ((Shutdown initMonState).1, [], none) :=
  ((shutdown_idempotent
      { shutdown := true, rpcReady := { buf := 0, cap := 1, closed := true },
        cancelled := true } rfl).2 initMonState).2.1

/-- C10: after Shutdown completes on a not-yet-shut-down Monitor the
rpcReady channel is closed, and SetClient, which sends on it
unconditionally, hits the send-on-closed-channel panic of Go. -/
theorem setClient_after_shutdown_panics (s : MonState)
    (h : s.shutdown = false) :
    ((Shutdown s).1).rpcReady.closed = true ∧
    SetClient ((Shutdown s).1) = SendResult.panicked := by
  constructor
  · simp [Shutdown, h]
  · simp [Shutdown, h, SetClient, chanSend]

/-- C10 witness: on a freshly constructed Monitor, SetClient after Shutdown
panics. -/
theorem setClient_after_shutdown_panics_witness :
    SetClient ((Shutdown initMonState).1) = SendResult.panicked :=
  (setClient_after_shutdown_panics initMonState rfl).2

end pubsubmon
